import Mathlib

/-!
Verification of the exchange-monitor account-fetch core.

The definitions below are a shallow embedding of
`src/services/accountManagerService.ts` and
`src/services/dataFetcherService.ts`, together with the account
registration route (`POST /accounts`) and the configuration helpers from
`src/config.ts`.  JavaScript objects used as string-keyed maps are
embedded as association lists; property access `m[k]` (which may yield
`undefined`) becomes an `Option`-valued lookup, and assignment
`m[k] = v` replaces the binding when the key is present and appends it
otherwise.  Clock reads (`Date.now()`) become an explicit `now`
parameter, and the outcome of a connector call
(`client.getExchangeData()`), which belongs to an external collaborator,
is an explicit parameter of the transition.

For the deep-copy behaviour of `getCachedData`
(`JSON.parse(JSON.stringify(cachedData))`) the JavaScript heap is made
explicit: objects and arrays live at numbered addresses, `JSON.stringify`
serializes a reachable value into a pure document tree, and `JSON.parse`
allocates a fresh node for every object or array of that tree.
-/

namespace ExMon

/-- JavaScript object assignment `m[k] = v` on a keyed map:
replace the binding if the key is present, append it otherwise. -/
def aset {κ β : Type} [DecidableEq κ] : List (κ × β) → κ → β → List (κ × β)
  | [], k, v => [(k, v)]
  | (k', v') :: rest, k, v =>
      if k' = k then (k, v) :: rest else (k', v') :: aset rest k v

/-- JavaScript property access `m[k]`: `none` plays the role of
`undefined`. -/
def alookup {κ β : Type} [DecidableEq κ] : List (κ × β) → κ → Option β
  | [], _ => none
  | (k', v') :: rest, k => if k' = k then some v' else alookup rest k

/-! ## Data model

`src/models/position.model.ts` is not part of the provided sources; the
snapshot types are modelled from the spec. -/

/-- Modelled from the spec: the position side variant (LONG/SHORT) of
`src/models/position.model.ts`, which is absent from the sources. -/
inductive Side where
  | long
  | short
deriving DecidableEq, Repr

/-- Modelled from the spec: the margin-mode variant (CROSS/ISOLATED) of
`src/models/position.model.ts`, which is absent from the sources. -/
inductive MarginMode where
  | cross
  | isolated
deriving DecidableEq, Repr

/-- Modelled from the spec: one Position record of
`src/models/position.model.ts`, which is absent from the sources.
Numeric fields are embedded as integers; the claims under verification
never compute with them. -/
structure Position where
  symbol : String
  side : Side
  size : Int
  notionalValue : Int
  entryPrice : Int
  markPrice : Int
  liquidationPrice : Int
  liquidationPriceChangePercent : Int
  currentFundingRate : Int
  nextFundingRate : Int
  leverage : Int
  unrealizedPnl : Int
  realizedPnl : Int
  marginMode : MarginMode
deriving DecidableEq, Repr

/-- Modelled from the spec: the AccountSummary record of
`src/models/position.model.ts`, which is absent from the sources. -/
structure AccountSummary where
  baseCurrency : String
  baseBalance : Int
  totalNotionalValue : Int
  accountLeverage : Int
  openPositionsCount : Nat
  openOrdersCount : Nat
  accountMarginRatio : Int
  liquidationBuffer : Int
deriving DecidableEq, Repr

/-- Modelled from the spec: the normalized result of one fetch
(`ExchangeData` in `src/models/position.model.ts`, absent from the
sources): an ordered sequence of positions plus one account summary,
carrying the owning exchange and account name. -/
structure ExchangeData where
  exchange : String
  accountName : String
  positions : List Position
  accountSummary : AccountSummary
deriving DecidableEq, Repr

/-- The exchange kind of `AccountConfig` in `src/config.ts`
(`'binance' | 'bybit'`). -/
inductive Exchange where
  | binance
  | bybit
deriving DecidableEq, Repr

/-- The account-type kind of `AccountConfig` in `src/config.ts`
(`'futures' | 'portfolioMargin' | 'unified'`). -/
inductive AccountType where
  | futures
  | portfolioMargin
  | unified
deriving DecidableEq, Repr

/-- `AccountConfig` from `src/config.ts`. -/
structure AccountConfig where
  name : String
  exchange : Exchange
  accountType : AccountType
  apiKey : String
  apiSecret : String
  baseUrl : Option String
deriving DecidableEq, Repr

/-- `getAccountByName` from `src/config.ts`:
`config.accounts.find(account => account.name === name)`. -/
def getAccountByName (accounts : List AccountConfig) (name : String) :
    Option AccountConfig :=
  accounts.find? (fun account => account.name == name)

/-- The identity of a constructed exchange-connector client
(`BinanceClient(FUTURES, ...)`, `BinanceClient(PORTFOLIO_MARGIN, ...)`
or `BybitClient(...)` in `accountManagerService.ts`). -/
inductive ClientKind where
  | binanceFutures
  | binancePortfolioMargin
  | bybitUnified
deriving DecidableEq, Repr

/-- A stored exchange-connector client: the constructor arguments it was
built from.  The connector's behaviour is external (spec §6), so fetch
outcomes are passed to the transitions as parameters. -/
structure ClientInfo where
  kind : ClientKind
  apiKey : String
  apiSecret : String
  baseUrl : Option String
deriving DecidableEq, Repr

/-- The module-level mutable state of `accountManagerService.ts`:
`exchangeClients`, `lastFetchTimes`, `errorCounts`, `backoffTimes` —
all JavaScript objects keyed by account name. -/
structure MgrState where
  clients : List (String × ClientInfo)
  lastFetchTimes : List (String × Nat)
  errorCounts : List (String × Nat)
  backoffTimes : List (String × Nat)
deriving DecidableEq, Repr

/-- `MAX_CONSECUTIVE_ERRORS` from `accountManagerService.ts`. -/
def MAX_CONSECUTIVE_ERRORS : Nat := 5

/-- `INITIAL_BACKOFF` from `accountManagerService.ts` (30 seconds,
in milliseconds). -/
def INITIAL_BACKOFF : Nat := 30000

/-- The outcome a connector call `client.getExchangeData()` would have:
it either resolves with data or throws. -/
inductive ConnectorOutcome where
  | ok (d : ExchangeData)
  | throw
deriving DecidableEq, Repr

/-- Result of one `fetchAccountData` call: the returned value
(`ExchangeData | null`), whether the connector was invoked, and the
post-state. -/
structure FetchCallResult where
  result : Option ExchangeData
  connectorCalled : Bool
  state : MgrState
deriving DecidableEq, Repr

/-- The backoff test `backoffTimes[accountName] > Date.now()` from
`fetchAccountData`; an absent key (`undefined`) compares as false. -/
def backoffActive (s : MgrState) (name : String) (now : Nat) : Bool :=
  match alookup s.backoffTimes name with
  | some b => decide (now < b)
  | none => false

/-- `AccountManager.fetchAccountData` from `accountManagerService.ts`:
no stored client returns `null`; an active backoff skips; otherwise the
connector is invoked, success resets the tracking state and failure
increments the error count, entering backoff from the threshold on. -/
def fetchAccountData (s : MgrState) (name : String) (now : Nat)
    (outcome : ConnectorOutcome) : FetchCallResult :=
  match alookup s.clients name with
  | none => ⟨none, false, s⟩
  | some _ =>
    if backoffActive s name now then ⟨none, false, s⟩
    else
      match outcome with
      | .ok d =>
          ⟨some d, true,
            { s with
                lastFetchTimes := aset s.lastFetchTimes name now,
                errorCounts := aset s.errorCounts name 0,
                backoffTimes := aset s.backoffTimes name 0 }⟩
      | .throw =>
          let newCount := (alookup s.errorCounts name).getD 0 + 1
          let backoffTimes' :=
            if MAX_CONSECUTIVE_ERRORS ≤ newCount then
              aset s.backoffTimes name
                (now + INITIAL_BACKOFF *
                  2 ^ (min (newCount - MAX_CONSECUTIVE_ERRORS) 5))
            else s.backoffTimes
          ⟨none, true,
            { s with
                errorCounts := aset s.errorCounts name newCount,
                backoffTimes := backoffTimes' }⟩

/-- The in-memory cache `cachedData` of `dataFetcherService.ts`
(`CombinedData`; the type itself lives in the absent
`src/models/position.model.ts` and is modelled from the spec and from
its uses in `dataFetcherService.ts`). -/
structure CombinedData where
  accounts : List (String × ExchangeData)
  currentAccount : String
  availableAccounts : List String
  accountConfigs : List (String × AccountConfig)
deriving DecidableEq, Repr

/-- The combined mutable state of the service modules: the account
manager's maps, the cache, and the configured account list
(`config.accounts` from `src/config.ts`). -/
structure SysState where
  mgr : MgrState
  cache : CombinedData
  configAccounts : List AccountConfig
deriving DecidableEq, Repr

/-- `AccountManager.getAvailableAccounts`:
`config.accounts.map(account => account.name)`. -/
def getAvailableAccounts (sys : SysState) : List String :=
  sys.configAccounts.map (fun account => account.name)

/-- The body of the per-account loop of `fetchAllAccountsData` in
`dataFetcherService.ts`: call `fetchAccountData`; when it returned data,
store it in the cache under the account name and refresh the cached
account config. -/
def fetchPassStep (sys : SysState) (now : Nat) (outcome : ConnectorOutcome)
    (name : String) : SysState :=
  let r := fetchAccountData sys.mgr name now outcome
  match r.result with
  | some d =>
      { sys with
          mgr := r.state,
          cache :=
            { sys.cache with
                accounts := aset sys.cache.accounts name d,
                accountConfigs :=
                  match getAccountByName sys.configAccounts name with
                  | some c => aset sys.cache.accountConfigs name c
                  | none => sys.cache.accountConfigs } }
  | none => { sys with mgr := r.state }

/-- `fetchAllAccountsData` from `dataFetcherService.ts`: one
orchestration pass over `getAvailableAccounts()`, sequentially.  The
connector outcome each account would see is a parameter. -/
def fetchAllAccountsData (sys : SysState) (now : Nat)
    (outcomes : String → ConnectorOutcome) : SysState :=
  (getAvailableAccounts sys).foldl
    (fun st n => fetchPassStep st now (outcomes n) n) sys

/-- `setCurrentAccount` from `dataFetcherService.ts`: succeeds exactly
when the name is in `cachedData.availableAccounts`, otherwise throws
`Invalid account`. -/
def setCurrentAccount (c : CombinedData) (name : String) :
    Except String CombinedData :=
  if c.availableAccounts.contains name then
    .ok { c with currentAccount := name }
  else
    .error ("Invalid account: " ++ name)

/-- The `POST /set-current` route behaviour around `setCurrentAccount`:
the thrown error is caught, leaving the cache as it was; on success the
updated cache replaces it.  The boolean records success. -/
def trySetCurrent (c : CombinedData) (name : String) : CombinedData × Bool :=
  match setCurrentAccount c name with
  | .ok c' => (c', true)
  | .error _ => (c, false)

/-- One account's health record, as assembled by
`AccountManager.getHealthStatus`.  ISO-formatted timestamps are kept as
their underlying epoch-millisecond values. -/
structure HealthRecord where
  healthy : Bool
  lastFetch : Option Nat
  timeSinceLastFetch : Option Nat
  inBackoff : Bool
  backoffEnds : Option Nat
  errorCount : Nat
  config : Option AccountConfig
deriving DecidableEq, Repr

/-- The record built for one account in the loop of
`AccountManager.getHealthStatus` (`lastFetchTimes[name] || 0`,
`healthy = lastFetch > 0 && now - lastFetch < 60000`, etc.;
`Math.round(ms / 1000)` becomes `(ms + 500) / 1000`). -/
def healthFor (sys : SysState) (now : Nat) (name : String) : HealthRecord :=
  let lastFetch := (alookup sys.mgr.lastFetchTimes name).getD 0
  let timeSinceLastFetch := now - lastFetch
  let isHealthy := decide (0 < lastFetch) && decide (timeSinceLastFetch < 60000)
  let inBackoff := backoffActive sys.mgr name now
  { healthy := isHealthy
    lastFetch := if lastFetch ≠ 0 then some lastFetch else none
    timeSinceLastFetch :=
      if lastFetch ≠ 0 then some ((timeSinceLastFetch + 500) / 1000) else none
    inBackoff := inBackoff
    backoffEnds :=
      if inBackoff then some ((alookup sys.mgr.backoffTimes name).getD 0)
      else none
    errorCount := (alookup sys.mgr.errorCounts name).getD 0
    config := getAccountByName sys.configAccounts name }

/-- `AccountManager.getHealthStatus`: one record per key of
`exchangeClients`. -/
def getHealthStatus (sys : SysState) (now : Nat) :
    List (String × HealthRecord) :=
  sys.mgr.clients.map (fun p => (p.1, healthFor sys now p.1))

/-- The connector-construction switch of
`AccountManager.initializeAccount`: supported `(exchange, accountType)`
combinations yield a client, unsupported ones throw. -/
def clientFor (cfg : AccountConfig) : Except String ClientInfo :=
  match cfg.exchange, cfg.accountType with
  | .binance, .futures =>
      .ok ⟨.binanceFutures, cfg.apiKey, cfg.apiSecret, cfg.baseUrl⟩
  | .binance, .portfolioMargin =>
      .ok ⟨.binancePortfolioMargin, cfg.apiKey, cfg.apiSecret, cfg.baseUrl⟩
  | .binance, .unified =>
      .error "Unsupported Binance account type: unified"
  | .bybit, .unified =>
      .ok ⟨.bybitUnified, cfg.apiKey, cfg.apiSecret, cfg.baseUrl⟩
  | .bybit, .futures =>
      .error "Unsupported Bybit account type: futures"
  | .bybit, .portfolioMargin =>
      .error "Unsupported Bybit account type: portfolioMargin"

/-- `AccountManager.initializeAccount`: construct the client (throwing
on an unsupported combination), run the client's session setup — whose
success is the external parameter `initSucceeds` — and on success store
the client and zero the three tracking maps for this name.  Note that
the stored bindings for an already-present name are overwritten. -/
def initAccount (sys : SysState) (cfg : AccountConfig) (initSucceeds : Bool) :
    Except String SysState :=
  match clientFor cfg with
  | .error e => .error e
  | .ok client =>
      if initSucceeds then
        .ok { sys with
                mgr := { clients := aset sys.mgr.clients cfg.name client,
                         lastFetchTimes := aset sys.mgr.lastFetchTimes cfg.name 0,
                         errorCounts := aset sys.mgr.errorCounts cfg.name 0,
                         backoffTimes := aset sys.mgr.backoffTimes cfg.name 0 } }
      else
        .error "client session setup failed"

/-- The `POST /accounts` route from the exchange routes file: reject
missing (falsy) required fields, reject a name that
`getAccountConfig` — i.e. `getAccountByName` over `config.accounts` —
already knows, then run `initializeAccount`.  The route never adds the
new config to `config.accounts`. -/
def registerAccount (sys : SysState) (cfg : AccountConfig)
    (initSucceeds : Bool) : Except String SysState :=
  if cfg.name = "" ∨ cfg.apiKey = "" ∨ cfg.apiSecret = "" then
    .error "Missing required fields"
  else if (getAccountByName sys.configAccounts cfg.name).isSome then
    .error "Account with this name already exists"
  else
    initAccount sys cfg initSucceeds

/-! ## The JavaScript heap, for the deep-copy read path

`getCachedData` returns `JSON.parse(JSON.stringify(cachedData))` and
then sets a `lastUpdate` property on the copy.  To reason about
aliasing, objects and arrays are placed at numbered heap addresses:
serialization reads the tree reachable from a value, parsing allocates
fresh addresses for every node of a tree, and mutation overwrites the
node stored at an address. -/

/-- A JSON-representable primitive value. -/
inductive JPrim where
  | jstr (s : String)
  | jnum (n : Int)
  | jbool (b : Bool)
  | jnull
deriving DecidableEq, Repr

/-- A JavaScript runtime value as stored in a field or variable: a
primitive, or a reference to a heap node. -/
inductive JVal where
  | prim (p : JPrim)
  | ref (a : Nat)
deriving DecidableEq, Repr

/-- A heap node: a JavaScript object or array. -/
inductive JNode where
  | obj (fields : List (String × JVal))
  | arr (items : List JVal)
deriving DecidableEq, Repr

/-- A JavaScript heap: nodes addressed by allocation index; `next` is
the next fresh address. -/
structure Heap where
  mem : List (Nat × JNode)
  next : Nat
deriving DecidableEq, Repr

/-- Read the node stored at an address. -/
def hlookup (h : Heap) (a : Nat) : Option JNode := alookup h.mem a

/-- Mutation of a live object or array: replace the node at an
address. -/
def hwrite (h : Heap) (a : Nat) (node : JNode) : Heap :=
  ⟨aset h.mem a node, h.next⟩

/-- A pure JSON document tree: what `JSON.stringify` produces, up to
concrete text syntax. -/
inductive JTree where
  | prim (p : JPrim)
  | obj (fields : List (String × JTree))
  | arr (items : List JTree)
deriving Repr

mutual
/-- `JSON.stringify` on a value: read the document tree reachable from
the value.  The fuel bounds reference-chasing depth; a cyclic structure
(on which `JSON.stringify` throws) yields `none` for every fuel. -/
def toTreeV (fuel : Nat) (h : Heap) (v : JVal) : Option JTree :=
  match fuel, v with
  | _, .prim p => some (.prim p)
  | 0, .ref _ => none
  | fuel' + 1, .ref a =>
      match hlookup h a with
      | none => none
      | some (.obj fs) => (toTreeFields fuel' h fs).map .obj
      | some (.arr vs) => (toTreeItems fuel' h vs).map .arr
termination_by (fuel, 0)
/-- Serialize the fields of an object node. -/
def toTreeFields (fuel : Nat) (h : Heap) (fs : List (String × JVal)) :
    Option (List (String × JTree)) :=
  match fs with
  | [] => some []
  | (k, v) :: rest =>
      match toTreeV fuel h v, toTreeFields fuel h rest with
      | some t, some ts => some ((k, t) :: ts)
      | _, _ => none
termination_by (fuel, sizeOf fs + 1)
/-- Serialize the items of an array node. -/
def toTreeItems (fuel : Nat) (h : Heap) (vs : List JVal) :
    Option (List JTree) :=
  match vs with
  | [] => some []
  | v :: rest =>
      match toTreeV fuel h v, toTreeItems fuel h rest with
      | some t, some ts => some (t :: ts)
      | _, _ => none
termination_by (fuel, sizeOf vs + 1)
end

mutual
/-- `JSON.parse` on a document tree: allocate a fresh node for every
object or array and return the value of the root. -/
def fromTreeV : JTree → Heap → JVal × Heap
  | .prim p, h => (.prim p, h)
  | .obj fs, h =>
      let r := fromTreeFields fs h
      (.ref r.2.next, ⟨aset r.2.mem r.2.next (.obj r.1), r.2.next + 1⟩)
  | .arr ts, h =>
      let r := fromTreeItems ts h
      (.ref r.2.next, ⟨aset r.2.mem r.2.next (.arr r.1), r.2.next + 1⟩)
/-- Parse the fields of an object tree, threading the heap. -/
def fromTreeFields : List (String × JTree) → Heap → List (String × JVal) × Heap
  | [], h => ([], h)
  | (k, t) :: rest, h =>
      let rv := fromTreeV t h
      let rr := fromTreeFields rest rv.2
      ((k, rv.1) :: rr.1, rr.2)
/-- Parse the items of an array tree, threading the heap. -/
def fromTreeItems : List JTree → Heap → List JVal × Heap
  | [], h => ([], h)
  | t :: rest, h =>
      let rv := fromTreeV t h
      let rr := fromTreeItems rest rv.2
      (rv.1 :: rr.1, rr.2)
end

/-- `data.lastUpdate = new Date().toISOString()` in `getCachedData`:
set the `lastUpdate` property on the (freshly parsed) copy; a no-op on
a non-object value. -/
def setLastUpdateField (v : JVal) (h : Heap) (ts : String) : JVal × Heap :=
  match v with
  | .ref a =>
      match hlookup h a with
      | some (.obj fs) =>
          (v, hwrite h a (.obj (aset fs "lastUpdate" (.prim (.jstr ts)))))
      | _ => (v, h)
  | .prim _ => (v, h)

/-- `getCachedData` from `dataFetcherService.ts`:
`JSON.parse(JSON.stringify(cachedData))`, then stamp `lastUpdate` on
the copy.  `root` is the value holding the cache, `ts` the timestamp
string. -/
def getCachedData (h : Heap) (root : JVal) (fuel : Nat) (ts : String) :
    Option (JVal × Heap) :=
  match toTreeV fuel h root with
  | none => none
  | some t =>
      let r := fromTreeV t h
      some (setLastUpdateField r.1 r.2 ts)

/-- All references of a value point below `n`. -/
def ValBelow (n : Nat) : JVal → Prop
  | .prim _ => True
  | .ref a => a < n

/-- All references of a value point at or above `n`. -/
def ValGE (n : Nat) : JVal → Prop
  | .prim _ => True
  | .ref a => n ≤ a

/-- All references inside a node point below `n`. -/
def NodeBelow (n : Nat) : JNode → Prop
  | .obj fs => ∀ p ∈ fs, ValBelow n p.2
  | .arr vs => ∀ v ∈ vs, ValBelow n v

/-- All references inside a node point at or above `n`. -/
def NodeGE (n : Nat) : JNode → Prop
  | .obj fs => ∀ p ∈ fs, ValGE n p.2
  | .arr vs => ∀ v ∈ vs, ValGE n v

/-- Every node stored below `n` has all its references below `n`:
the region below `n` is closed under reachability. -/
def ClosedBelow (n : Nat) (h : Heap) : Prop :=
  ∀ p ∈ h.mem, p.1 < n → NodeBelow n p.2

/-- Every stored node lives below the allocation counter. -/
def WFHeap (h : Heap) : Prop := ∀ p ∈ h.mem, p.1 < h.next

instance (n : Nat) : (v : JVal) → Decidable (ValBelow n v)
  | .prim _ => .isTrue trivial
  | .ref a => inferInstanceAs (Decidable (a < n))

instance (n : Nat) : (v : JVal) → Decidable (ValGE n v)
  | .prim _ => .isTrue trivial
  | .ref a => inferInstanceAs (Decidable (n ≤ a))

instance (n : Nat) : (node : JNode) → Decidable (NodeBelow n node)
  | .obj fs => inferInstanceAs (Decidable (∀ p ∈ fs, ValBelow n p.2))
  | .arr vs => inferInstanceAs (Decidable (∀ v ∈ vs, ValBelow n v))

instance (n : Nat) (h : Heap) : Decidable (ClosedBelow n h) :=
  inferInstanceAs (Decidable (∀ p ∈ h.mem, p.1 < n → NodeBelow n p.2))

instance (h : Heap) : Decidable (WFHeap h) :=
  inferInstanceAs (Decidable (∀ p ∈ h.mem, p.1 < h.next))

/-- The address `b` is reachable (through object fields and array
items) from the value `v` in heap `h`; mutating any part of a returned
structure is a write at such an address. -/
inductive Reaches (h : Heap) : JVal → Nat → Prop where
  | here (a : Nat) : Reaches h (.ref a) a
  | objField (a : Nat) (fs : List (String × JVal)) (p : String × JVal) (b : Nat) :
      hlookup h a = some (.obj fs) → p ∈ fs → Reaches h p.2 b →
      Reaches h (.ref a) b
  | arrItem (a : Nat) (vs : List JVal) (v : JVal) (b : Nat) :
      hlookup h a = some (.arr vs) → v ∈ vs → Reaches h v b →
      Reaches h (.ref a) b

/-! ## Concrete states used by witnesses and counterexamples -/

/-- A concrete connector client. -/
def sampleClient : ClientInfo := ⟨.bybitUnified, "key", "secret", none⟩

/-- A concrete account summary. -/
def sampleSummary : AccountSummary := ⟨"USDT", 100, 0, 1, 0, 0, 0, 50⟩

/-- A concrete snapshot for account `"A"`. -/
def sampleData : ExchangeData := ⟨"bybit", "A", [], sampleSummary⟩

/-- The cache as first created in `dataFetcherService.ts`. -/
def emptyCache : CombinedData := ⟨[], "", [], []⟩

/-- Account `"A"` just after its connector was stored (all tracking
fields zeroed). -/
def mgrA0 : MgrState := ⟨[("A", sampleClient)], [("A", 0)], [("A", 0)], [("A", 0)]⟩

/-- A state of account `"A"` reached through the manager's public
transitions: one successful fetch at t = 1000 followed by five
consecutive failed fetches at t = 1001..1005; the fifth failure reaches
the threshold and arms a backoff until t = 31005. -/
def mgrAFiveFailures : MgrState :=
  (fetchAccountData
    ((fetchAccountData
      ((fetchAccountData
        ((fetchAccountData
          ((fetchAccountData
            ((fetchAccountData mgrA0 "A" 1000 (.ok sampleData)).state)
            "A" 1001 .throw).state)
          "A" 1002 .throw).state)
        "A" 1003 .throw).state)
      "A" 1004 .throw).state)
    "A" 1005 .throw).state

/-- The five-failure manager state embedded in a system state. -/
def sysAFiveFailures : SysState := ⟨mgrAFiveFailures, emptyCache, []⟩

/-- Account `"A"` with four consecutive errors on record. -/
def mgrErr4 : MgrState :=
  ⟨[("A", sampleClient)], [("A", 1000)], [("A", 4)], [("A", 0)]⟩

/-- A one-account system state. -/
def sysA : SysState := ⟨mgrA0, emptyCache, []⟩

/-- A cache knowing accounts `"A"` and `"B"`, currently on `"A"`. -/
def cacheAB : CombinedData := ⟨[], "A", ["A", "B"], []⟩

/-- Configuration of account `"A"`. -/
def cfgA : AccountConfig := ⟨"A", .bybit, .unified, "key", "secret", none⟩

/-- Configuration of account `"B"`. -/
def cfgB : AccountConfig := ⟨"B", .binance, .futures, "key2", "secret2", none⟩

/-- A dynamically registered account `"X"` (absent from
`config.accounts`). -/
def cfgX : AccountConfig := ⟨"X", .bybit, .unified, "key", "secret", none⟩

/-- The connector client of account `"B"`. -/
def clientB : ClientInfo := ⟨.binanceFutures, "key2", "secret2", none⟩

/-- A previously cached snapshot for account `"B"`. -/
def oldBData : ExchangeData := ⟨"binance", "B", [], sampleSummary⟩

/-- Manager state with accounts `"A"` and `"B"` registered and clean. -/
def mgrAB : MgrState :=
  ⟨[("A", sampleClient), ("B", clientB)],
   [("A", 0), ("B", 0)], [("A", 0), ("B", 0)], [("A", 0), ("B", 0)]⟩

/-- Two-account system state: `"B"` has a stale cache entry. -/
def sysAB : SysState :=
  ⟨mgrAB, ⟨[("B", oldBData)], "A", ["A", "B"], []⟩, [cfgA, cfgB]⟩

/-- A pass in which `"A"` succeeds and every other account fails. -/
def passOutcomes : String → ConnectorOutcome :=
  fun n => if n = "A" then .ok sampleData else .throw

/-- The empty system state (no accounts configured or registered). -/
def sysEmpty : SysState := ⟨⟨[], [], [], []⟩, emptyCache, []⟩

/-- The system state after registering `cfgX` into `sysEmpty`. -/
def sysX1 : SysState :=
  ⟨⟨[("X", ⟨.bybitUnified, "key", "secret", none⟩)],
    [("X", 0)], [("X", 0)], [("X", 0)]⟩, emptyCache, []⟩

/-- `sysX1` after one failed fetch for `"X"` at t = 100. -/
def sysX2 : SysState :=
  ⟨(fetchAccountData sysX1.mgr "X" 100 .throw).state,
   sysX1.cache, sysX1.configAccounts⟩

/-- A concrete cache heap: the cache object at address 0 with one
sub-object at address 1. -/
def h9 : Heap := ⟨[(0, .obj [("accounts", .ref 1)]), (1, .obj [])], 2⟩

/-- The document tree of `h9`'s cache object. -/
def t9 : JTree := .obj [("accounts", .obj [])]

/-- The root of the copy `getCachedData` returns on `h9`. -/
def v9 : JVal := .ref 3

/-- The heap after `getCachedData` on `h9`: the original nodes are
intact and the copy (with its `lastUpdate` stamp) occupies fresh
addresses 2 and 3. -/
def h9' : Heap :=
  ⟨[(0, .obj [("accounts", .ref 1)]), (1, .obj []), (2, .obj []),
    (3, .obj [("accounts", .ref 2), ("lastUpdate", .prim (.jstr "T"))])], 4⟩


/-! ## Association-list lemmas -/

theorem alookup_aset_self {κ β : Type} [DecidableEq κ]
    (m : List (κ × β)) (k : κ) (v : β) : alookup (aset m k v) k = some v := by
  induction m with
  | nil => simp [aset, alookup]
  | cons p rest ih =>
      obtain ⟨k', v'⟩ := p
      by_cases h : k' = k
      · simp [aset, alookup, h]
      · simp [aset, alookup, h, ih]

theorem alookup_aset_ne {κ β : Type} [DecidableEq κ]
    (m : List (κ × β)) (k k' : κ) (v : β) (h : k' ≠ k) :
    alookup (aset m k v) k' = alookup m k' := by
  have hk : ¬(k = k') := fun e => h e.symm
  induction m with
  | nil => simp [aset, alookup, hk]
  | cons p rest ih =>
      obtain ⟨k'', v''⟩ := p
      by_cases h2 : k'' = k
      · subst h2
        simp [aset, alookup, hk]
      · by_cases h3 : k'' = k'
        · simp [aset, alookup, h2, h3, h, hk]
        · simp [aset, alookup, h2, h3, ih]

theorem alookup_mem {κ β : Type} [DecidableEq κ]
    (m : List (κ × β)) (k : κ) (v : β) (h : alookup m k = some v) :
    (k, v) ∈ m := by
  induction m with
  | nil => simp [alookup] at h
  | cons p rest ih =>
      obtain ⟨k', v'⟩ := p
      by_cases h2 : k' = k
      · subst h2
        simp [alookup] at h
        simp [h]
      · simp [alookup, h2] at h
        exact List.mem_cons_of_mem _ (ih h)

theorem mem_aset {κ β : Type} [DecidableEq κ]
    (m : List (κ × β)) (k : κ) (v : β) (p : κ × β) (h : p ∈ aset m k v) :
    p = (k, v) ∨ p ∈ m := by
  induction m with
  | nil => simpa [aset] using h
  | cons q rest ih =>
      obtain ⟨k', v'⟩ := q
      by_cases h2 : k' = k
      · simp [aset, h2] at h
        rcases h with h | h
        · exact Or.inl h
        · exact Or.inr (List.mem_cons_of_mem _ h)
      · simp [aset, h2] at h
        rcases h with h | h
        · exact Or.inr (by simp [h])
        · rcases ih h with h3 | h3
          · exact Or.inl h3
          · exact Or.inr (List.mem_cons_of_mem _ h3)

theorem alookup_map_self {β γ : Type} (f : String → γ)
    (l : List (String × β)) (name : String) (c : β)
    (h : alookup l name = some c) :
    alookup (l.map (fun p => (p.1, f p.1))) name = some (f name) := by
  induction l with
  | nil => simp [alookup] at h
  | cons p rest ih =>
      obtain ⟨k, v⟩ := p
      by_cases h2 : k = name
      · subst h2
        simp [alookup]
      · simp [alookup, h2] at h ⊢
        exact ih h

/-! ## Transition helper lemmas -/

theorem fetchAccountData_success_eq (s : MgrState) (name : String) (now : Nat)
    (d : ExchangeData) (c : ClientInfo)
    (hclient : alookup s.clients name = some c)
    (hnb : backoffActive s name now = false) :
    fetchAccountData s name now (.ok d) =
      ⟨some d, true,
        { s with
            lastFetchTimes := aset s.lastFetchTimes name now,
            errorCounts := aset s.errorCounts name 0,
            backoffTimes := aset s.backoffTimes name 0 }⟩ := by
  simp [fetchAccountData, hclient, hnb]

theorem fetchAccountData_throw_result_none (s : MgrState) (name : String)
    (now : Nat) : (fetchAccountData s name now .throw).result = none := by
  cases hcl : alookup s.clients name with
  | none => simp [fetchAccountData, hcl]
  | some c =>
      by_cases hb : backoffActive s name now
      · simp [fetchAccountData, hcl, hb]
      · simp [fetchAccountData, hcl, hb]

theorem fetchAccountData_throw_lastFetch (s : MgrState) (name : String)
    (now : Nat) :
    (fetchAccountData s name now .throw).state.lastFetchTimes =
      s.lastFetchTimes := by
  cases hcl : alookup s.clients name with
  | none => simp [fetchAccountData, hcl]
  | some c =>
      by_cases hb : backoffActive s name now
      · simp [fetchAccountData, hcl, hb]
      · simp [fetchAccountData, hcl, hb]

theorem fetchAccountData_throw_step (s : MgrState) (name : String)
    (now : Nat) (c : ClientInfo)
    (hclient : alookup s.clients name = some c)
    (hnb : backoffActive s name now = false) :
    alookup (fetchAccountData s name now .throw).state.errorCounts name =
      some ((alookup s.errorCounts name).getD 0 + 1) ∧
    (5 ≤ (alookup s.errorCounts name).getD 0 + 1 →
      alookup (fetchAccountData s name now .throw).state.backoffTimes name =
        some (now + 30000 *
          2 ^ (min ((alookup s.errorCounts name).getD 0 + 1 - 5) 5))) ∧
    ((alookup s.errorCounts name).getD 0 + 1 < 5 →
      alookup (fetchAccountData s name now .throw).state.backoffTimes name =
        alookup s.backoffTimes name) := by
  simp only [fetchAccountData, hclient, hnb, Bool.false_eq_true, if_false]
  set e := (alookup s.errorCounts name).getD 0 with he
  refine ⟨?_, ?_, ?_⟩
  · simp [alookup_aset_self]
  · intro h5
    simp only [MAX_CONSECUTIVE_ERRORS, INITIAL_BACKOFF] at *
    simp [h5, alookup_aset_self]
  · intro hlt
    have : ¬ (5 : Nat) ≤ e + 1 := by omega
    simp only [MAX_CONSECUTIVE_ERRORS, INITIAL_BACKOFF]
    simp [this]

theorem fetchPassStep_ok_spec (sys : SysState) (name : String) (now : Nat)
    (d : ExchangeData) (c : ClientInfo)
    (hclient : alookup sys.mgr.clients name = some c)
    (hnb : backoffActive sys.mgr name now = false) :
    alookup (fetchPassStep sys now (.ok d) name).mgr.lastFetchTimes name =
      some now ∧
    alookup (fetchPassStep sys now (.ok d) name).mgr.errorCounts name =
      some 0 ∧
    alookup (fetchPassStep sys now (.ok d) name).mgr.backoffTimes name =
      some 0 ∧
    alookup (fetchPassStep sys now (.ok d) name).cache.accounts name =
      some d := by
  simp [fetchPassStep, fetchAccountData_success_eq sys.mgr name now d c hclient hnb,
        alookup_aset_self]

theorem fetchPassStep_throw_cache (sys : SysState) (name : String)
    (now : Nat) : (fetchPassStep sys now .throw name).cache = sys.cache := by
  simp [fetchPassStep, fetchAccountData_throw_result_none]

theorem fetchPassStep_preserves (sys : SysState) (now : Nat)
    (outcome : ConnectorOutcome) (name : String) :
    (fetchPassStep sys now outcome name).mgr.clients = sys.mgr.clients ∧
    (fetchPassStep sys now outcome name).configAccounts = sys.configAccounts ∧
    (fetchPassStep sys now outcome name).cache.availableAccounts =
      sys.cache.availableAccounts := by
  cases hcl : alookup sys.mgr.clients name with
  | none => simp [fetchPassStep, fetchAccountData, hcl]
  | some c =>
      by_cases hb : backoffActive sys.mgr name now
      · simp [fetchPassStep, fetchAccountData, hcl, hb]
      · cases outcome with
        | ok d => simp [fetchPassStep, fetchAccountData, hcl, hb]
        | throw => simp [fetchPassStep, fetchAccountData, hcl, hb]

theorem fetchPassStep_frame (sys : SysState) (now : Nat)
    (outcome : ConnectorOutcome) (name other : String) (hne : other ≠ name) :
    alookup (fetchPassStep sys now outcome name).mgr.lastFetchTimes other =
      alookup sys.mgr.lastFetchTimes other ∧
    alookup (fetchPassStep sys now outcome name).mgr.errorCounts other =
      alookup sys.mgr.errorCounts other ∧
    alookup (fetchPassStep sys now outcome name).mgr.backoffTimes other =
      alookup sys.mgr.backoffTimes other ∧
    alookup (fetchPassStep sys now outcome name).cache.accounts other =
      alookup sys.cache.accounts other := by
  cases hcl : alookup sys.mgr.clients name with
  | none => simp [fetchPassStep, fetchAccountData, hcl]
  | some c =>
      by_cases hb : backoffActive sys.mgr name now
      · simp [fetchPassStep, fetchAccountData, hcl, hb]
      · cases outcome with
        | ok d =>
            simp [fetchPassStep, fetchAccountData, hcl, hb,
                  alookup_aset_ne _ _ _ _ hne]
        | throw =>
            by_cases h5 : MAX_CONSECUTIVE_ERRORS ≤
                (alookup sys.mgr.errorCounts name).getD 0 + 1
            · simp [fetchPassStep, fetchAccountData, hcl, hb, h5,
                    alookup_aset_ne _ _ _ _ hne]
            · simp [fetchPassStep, fetchAccountData, hcl, hb, h5,
                    alookup_aset_ne _ _ _ _ hne]

theorem backoffActive_congr (s s' : MgrState) (name : String) (now : Nat)
    (h : alookup s'.backoffTimes name = alookup s.backoffTimes name) :
    backoffActive s' name now = backoffActive s name now := by
  simp [backoffActive, h]


/-! ## Claims about the fetch state machine -/

/-- C1: a failed fetch attempt (connector call throws) at time `now`
increments the account's consecutive error count by 1; if the new count
is at least 5, `backoffUntil` becomes
`now + 30000 * 2 ^ min (count - 5) 5` — so the 5th consecutive failure
yields `now + 30000` and from the 11th on the backoff is capped at
`now + 960000` — and if the new count is below 5 the backoff value is
left untouched, in particular it stays 0 when it was 0. -/
theorem fetchAccountData_failure_backoff (s : MgrState) (name : String)
    (now : Nat) (c : ClientInfo)
    (hclient : alookup s.clients name = some c)
    (hnb : backoffActive s name now = false) :
    alookup (fetchAccountData s name now .throw).state.errorCounts name =
      some ((alookup s.errorCounts name).getD 0 + 1) ∧
    (5 ≤ (alookup s.errorCounts name).getD 0 + 1 →
      alookup (fetchAccountData s name now .throw).state.backoffTimes name =
        some (now + 30000 *
          2 ^ (min ((alookup s.errorCounts name).getD 0 + 1 - 5) 5))) ∧
    ((alookup s.errorCounts name).getD 0 + 1 = 5 →
      alookup (fetchAccountData s name now .throw).state.backoffTimes name =
        some (now + 30000)) ∧
    (11 ≤ (alookup s.errorCounts name).getD 0 + 1 →
      alookup (fetchAccountData s name now .throw).state.backoffTimes name =
        some (now + 960000)) ∧
    ((alookup s.errorCounts name).getD 0 + 1 < 5 →
      alookup (fetchAccountData s name now .throw).state.backoffTimes name =
        alookup s.backoffTimes name) ∧
    ((alookup s.errorCounts name).getD 0 + 1 < 5 →
      (alookup s.backoffTimes name).getD 0 = 0 →
      (alookup (fetchAccountData s name now .throw).state.backoffTimes
        name).getD 0 = 0) := by
  simp only [fetchAccountData, hclient, hnb, Bool.false_eq_true, if_false]
  set e := (alookup s.errorCounts name).getD 0 with he
  refine ⟨?_, ?_, ?_, ?_, ?_, ?_⟩
  · simp [alookup_aset_self]
  · intro h5
    simp only [MAX_CONSECUTIVE_ERRORS, INITIAL_BACKOFF] at *
    simp [h5, alookup_aset_self]
  · intro h5
    have : (5 : Nat) ≤ e + 1 := by omega
    simp only [MAX_CONSECUTIVE_ERRORS, INITIAL_BACKOFF]
    simp [this, alookup_aset_self]
    have hm : (e - 4) ⊓ 5 = 0 := by omega
    rw [hm]
    norm_num
  · intro h11
    have : (5 : Nat) ≤ e + 1 := by omega
    simp only [MAX_CONSECUTIVE_ERRORS, INITIAL_BACKOFF]
    simp [this, alookup_aset_self]
    have hm : (e - 4) ⊓ 5 = 5 := by omega
    rw [hm]
    norm_num
  · intro hlt
    have : ¬ (5 : Nat) ≤ e + 1 := by omega
    simp only [MAX_CONSECUTIVE_ERRORS, INITIAL_BACKOFF]
    simp [this]
  · intro hlt hz
    have : ¬ (5 : Nat) ≤ e + 1 := by omega
    simp only [MAX_CONSECUTIVE_ERRORS, INITIAL_BACKOFF]
    simp [this, hz]

/-- Witness for C1: account `"A"` with four errors on record fails a
fifth time at t = 2000, reaching the threshold: the count becomes 5 and
the backoff is armed until 2000 + 30000 = 32000. -/
theorem fetchAccountData_failure_backoff_witness :
    alookup mgrErr4.clients "A" = some sampleClient ∧
    backoffActive mgrErr4 "A" 2000 = false ∧
    alookup (fetchAccountData mgrErr4 "A" 2000 .throw).state.errorCounts "A" =
      some 5 ∧
    alookup (fetchAccountData mgrErr4 "A" 2000 .throw).state.backoffTimes "A" =
      some 32000 := by
  have h := fetchAccountData_failure_backoff mgrErr4 "A" 2000 sampleClient
    rfl rfl
  refine ⟨rfl, rfl, ?_, ?_⟩
  · simpa using h.1
  · simpa using h.2.2.1 (by decide)

/-- C2: a successful fetch at time `now` — whatever the prior error
count and (expired) backoff value — returns the snapshot, sets
`lastFetchTimestamp = now`, resets the consecutive error count and the
backoff to 0, and the orchestration step stores the snapshot in the
cache under the account's name. -/
theorem fetchPassStep_success_resets (sys : SysState) (name : String)
    (now : Nat) (d : ExchangeData) (c : ClientInfo)
    (hclient : alookup sys.mgr.clients name = some c)
    (hnb : backoffActive sys.mgr name now = false) :
    (fetchAccountData sys.mgr name now (.ok d)).result = some d ∧
    (fetchAccountData sys.mgr name now (.ok d)).connectorCalled = true ∧
    alookup (fetchPassStep sys now (.ok d) name).mgr.lastFetchTimes name =
      some now ∧
    alookup (fetchPassStep sys now (.ok d) name).mgr.errorCounts name =
      some 0 ∧
    alookup (fetchPassStep sys now (.ok d) name).mgr.backoffTimes name =
      some 0 ∧
    alookup (fetchPassStep sys now (.ok d) name).cache.accounts name =
      some d := by
  have he := fetchAccountData_success_eq sys.mgr name now d c hclient hnb
  have h := fetchPassStep_ok_spec sys name now d c hclient hnb
  exact ⟨by rw [he], by rw [he], h.1, h.2.1, h.2.2.1, h.2.2.2⟩

/-- Witness for C2: a concrete successful fetch for `"A"` at t = 1000
resets the tracking state and stores the snapshot. -/
theorem fetchPassStep_success_resets_witness :
    alookup sysA.mgr.clients "A" = some sampleClient ∧
    backoffActive sysA.mgr "A" 1000 = false ∧
    alookup (fetchPassStep sysA 1000 (.ok sampleData) "A").mgr.lastFetchTimes
      "A" = some 1000 ∧
    alookup (fetchPassStep sysA 1000 (.ok sampleData) "A").mgr.errorCounts
      "A" = some 0 ∧
    alookup (fetchPassStep sysA 1000 (.ok sampleData) "A").mgr.backoffTimes
      "A" = some 0 ∧
    alookup (fetchPassStep sysA 1000 (.ok sampleData) "A").cache.accounts
      "A" = some sampleData := by
  have h := fetchPassStep_success_resets sysA "A" 1000 sampleData sampleClient
    rfl rfl
  exact ⟨rfl, rfl, h.2.2.1, h.2.2.2.1, h.2.2.2.2.1, h.2.2.2.2.2⟩

/-- C3: while `backoffUntil > now`, a fetch attempt does not invoke the
connector (whatever the connector would have done) and leaves the
manager state, the cache and the whole system state unchanged. -/
theorem backoff_skip (sys : SysState) (name : String) (now : Nat)
    (outcome : ConnectorOutcome)
    (hb : backoffActive sys.mgr name now = true) :
    fetchAccountData sys.mgr name now outcome = ⟨none, false, sys.mgr⟩ ∧
    fetchPassStep sys now outcome name = sys := by
  have h1 : fetchAccountData sys.mgr name now outcome =
      ⟨none, false, sys.mgr⟩ := by
    cases hcl : alookup sys.mgr.clients name with
    | none => simp [fetchAccountData, hcl]
    | some c => simp [fetchAccountData, hcl, hb]
  exact ⟨h1, by simp [fetchPassStep, h1]⟩

/-- Witness for C3: in the five-failure state the backoff for `"A"`
runs until t = 31005, so at t = 1006 the fetch is skipped even though
the connector would have succeeded. -/
theorem backoff_skip_witness :
    backoffActive sysAFiveFailures.mgr "A" 1006 = true ∧
    fetchAccountData sysAFiveFailures.mgr "A" 1006 (.ok sampleData) =
      ⟨none, false, sysAFiveFailures.mgr⟩ ∧
    fetchPassStep sysAFiveFailures 1006 (.ok sampleData) "A" =
      sysAFiveFailures := by
  have h := backoff_skip sysAFiveFailures "A" 1006 (.ok sampleData) (by decide)
  exact ⟨by decide, h.1, h.2⟩

/-- C6: a failed fetch leaves the whole cache — in particular any prior
entry for the failing account — untouched, so a consumer keeps seeing
the last successfully stored snapshot (or no entry if none ever
succeeded). -/
theorem failure_preserves_cache (sys : SysState) (name : String) (now : Nat) :
    (fetchPassStep sys now .throw name).cache = sys.cache ∧
    alookup (fetchPassStep sys now .throw name).cache.accounts name =
      alookup sys.cache.accounts name := by
  have h1 := fetchPassStep_throw_cache sys name now
  exact ⟨h1, by rw [h1]⟩

/-- C7: `setCurrentAccount` fails (throws) exactly when the name is not
among the known account names; the route leaves the previous selection
untouched on failure and switches the selection on success. -/
theorem setCurrentAccount_spec (c : CombinedData) (name : String) :
    ((∃ e, setCurrentAccount c name = Except.error e) ↔
        c.availableAccounts.contains name = false) ∧
    (trySetCurrent c name).2 = c.availableAccounts.contains name ∧
    (c.availableAccounts.contains name = false →
        trySetCurrent c name = (c, false)) ∧
    (c.availableAccounts.contains name = true →
        trySetCurrent c name = ({ c with currentAccount := name }, true)) := by
  by_cases h : name ∈ c.availableAccounts
  · simp [setCurrentAccount, trySetCurrent, h]
  · simp [setCurrentAccount, trySetCurrent, h]

/-- Witness for C7: selecting the unregistered `"ghost"` fails and
leaves the selection at `"A"`; selecting the registered `"B"`
succeeds. -/
theorem setCurrentAccount_spec_witness :
    trySetCurrent cacheAB "ghost" = (cacheAB, false) ∧
    trySetCurrent cacheAB "B" =
      ({ cacheAB with currentAccount := "B" }, true) := by
  exact ⟨(setCurrentAccount_spec cacheAB "ghost").2.2.1 (by decide),
         (setCurrentAccount_spec cacheAB "B").2.2.2 (by decide)⟩

/-- C8: on a single pass over accounts `A` and `B` where `A` succeeds
and `B` fails, `A`'s cache entry is replaced by the new snapshot while
`B`'s stays as it was, only `B`'s error count is incremented (`A`'s is
reset to 0), and neither account's outcome affects the other's tracking
state. -/
theorem pass_isolation (sys : SysState) (nameA nameB : String)
    (cfA cfB : AccountConfig) (now : Nat) (d : ExchangeData)
    (cA cB : ClientInfo) (outcomes : String → ConnectorOutcome)
    (hAB : nameA ≠ nameB)
    (hcfg : sys.configAccounts = [cfA, cfB])
    (hA : cfA.name = nameA) (hB : cfB.name = nameB)
    (hcliA : alookup sys.mgr.clients nameA = some cA)
    (hcliB : alookup sys.mgr.clients nameB = some cB)
    (hnbA : backoffActive sys.mgr nameA now = false)
    (hnbB : backoffActive sys.mgr nameB now = false)
    (hoA : outcomes nameA = .ok d) (hoB : outcomes nameB = .throw) :
    alookup (fetchAllAccountsData sys now outcomes).cache.accounts nameA =
      some d ∧
    alookup (fetchAllAccountsData sys now outcomes).cache.accounts nameB =
      alookup sys.cache.accounts nameB ∧
    alookup (fetchAllAccountsData sys now outcomes).mgr.errorCounts nameA =
      some 0 ∧
    alookup (fetchAllAccountsData sys now outcomes).mgr.errorCounts nameB =
      some ((alookup sys.mgr.errorCounts nameB).getD 0 + 1) ∧
    alookup (fetchAllAccountsData sys now outcomes).mgr.lastFetchTimes nameA =
      some now ∧
    alookup (fetchAllAccountsData sys now outcomes).mgr.lastFetchTimes nameB =
      alookup sys.mgr.lastFetchTimes nameB ∧
    alookup (fetchAllAccountsData sys now outcomes).mgr.backoffTimes nameA =
      some 0 := by
  have hBA : nameB ≠ nameA := fun e => hAB e.symm
  have hpass : fetchAllAccountsData sys now outcomes =
      fetchPassStep (fetchPassStep sys now (ConnectorOutcome.ok d) nameA) now
        ConnectorOutcome.throw nameB := by
    simp [fetchAllAccountsData, getAvailableAccounts, hcfg, hA, hB, hoA, hoB]
  have h1succ := fetchPassStep_ok_spec sys nameA now d cA hcliA hnbA
  have h1pre := fetchPassStep_preserves sys now (ConnectorOutcome.ok d) nameA
  have h1fr := fetchPassStep_frame sys now (ConnectorOutcome.ok d) nameA nameB hBA
  have hcliB1 :
      alookup (fetchPassStep sys now (ConnectorOutcome.ok d) nameA).mgr.clients
        nameB = some cB := by
    rw [h1pre.1]; exact hcliB
  have hnbB1 :
      backoffActive (fetchPassStep sys now (ConnectorOutcome.ok d) nameA).mgr
        nameB now = false := by
    rw [backoffActive_congr sys.mgr
        (fetchPassStep sys now (ConnectorOutcome.ok d) nameA).mgr nameB now
        h1fr.2.2.1]
    exact hnbB
  have h2fr := fetchPassStep_frame
    (fetchPassStep sys now (ConnectorOutcome.ok d) nameA) now
    ConnectorOutcome.throw nameB nameA hAB
  have h2cache := fetchPassStep_throw_cache
    (fetchPassStep sys now (ConnectorOutcome.ok d) nameA) nameB now
  have h2mgr :
      (fetchPassStep (fetchPassStep sys now (ConnectorOutcome.ok d) nameA) now
          ConnectorOutcome.throw nameB).mgr =
        (fetchAccountData
          (fetchPassStep sys now (ConnectorOutcome.ok d) nameA).mgr nameB now
          ConnectorOutcome.throw).state := by
    simp [fetchPassStep, fetchAccountData_throw_result_none]
  have hthrow := fetchAccountData_throw_step
    (fetchPassStep sys now (ConnectorOutcome.ok d) nameA).mgr nameB now cB
    hcliB1 hnbB1
  rw [hpass]
  refine ⟨?_, ?_, ?_, ?_, ?_, ?_, ?_⟩
  · rw [h2cache]; exact h1succ.2.2.2
  · rw [h2cache]; exact h1fr.2.2.2
  · rw [h2fr.2.1]; exact h1succ.2.1
  · rw [h2mgr, hthrow.1, h1fr.2.1]
  · rw [h2fr.1]; exact h1succ.1
  · rw [h2mgr, fetchAccountData_throw_lastFetch]; exact h1fr.1
  · rw [h2fr.2.2.1]; exact h1succ.2.2.1

/-- Witness for C8: a concrete pass at t = 500 over `"A"` (succeeds)
and `"B"` (fails, had a stale entry): `"A"`'s entry is replaced, `"B"`'s
stale entry survives, only `"B"`'s error count rises to 1. -/
theorem pass_isolation_witness :
    alookup (fetchAllAccountsData sysAB 500 passOutcomes).cache.accounts "A" =
      some sampleData ∧
    alookup (fetchAllAccountsData sysAB 500 passOutcomes).cache.accounts "B" =
      some oldBData ∧
    alookup (fetchAllAccountsData sysAB 500 passOutcomes).mgr.errorCounts "A" =
      some 0 ∧
    alookup (fetchAllAccountsData sysAB 500 passOutcomes).mgr.errorCounts "B" =
      some 1 ∧
    alookup (fetchAllAccountsData sysAB 500 passOutcomes).mgr.lastFetchTimes
      "A" = some 500 ∧
    alookup (fetchAllAccountsData sysAB 500 passOutcomes).mgr.lastFetchTimes
      "B" = some 0 := by
  have h := pass_isolation sysAB "A" "B" cfgA cfgB 500 sampleData sampleClient
    clientB passOutcomes (by decide) rfl rfl rfl rfl rfl rfl rfl rfl rfl
  refine ⟨h.1, ?_, h.2.2.1, ?_, h.2.2.2.2.1, ?_⟩
  · rw [h.2.1]; rfl
  · exact h.2.2.2.1
  · rw [h.2.2.2.2.2.1]; rfl

/-- C10: for an account name with no stored connector client,
`fetchAccountData` returns `null` without touching any state, the
orchestration step is the identity, and any number of repeated passes
(at arbitrary times and with arbitrary would-be outcomes) leaves the
system state — error counts and backoff included — unchanged. -/
theorem fetch_no_client (sys : SysState) (name : String) (now : Nat)
    (outcome : ConnectorOutcome)
    (h : alookup sys.mgr.clients name = none) :
    fetchAccountData sys.mgr name now outcome = ⟨none, false, sys.mgr⟩ ∧
    fetchPassStep sys now outcome name = sys ∧
    ∀ l : List (Nat × ConnectorOutcome),
      l.foldl (fun st p => fetchPassStep st p.1 p.2 name) sys = sys := by
  have h1 : fetchAccountData sys.mgr name now outcome =
      ⟨none, false, sys.mgr⟩ := by
    simp [fetchAccountData, h]
  have h2 : ∀ (now' : Nat) (o : ConnectorOutcome),
      fetchPassStep sys now' o name = sys := by
    intro now' o
    simp [fetchPassStep, fetchAccountData, h]
  refine ⟨h1, h2 now outcome, ?_⟩
  intro l
  induction l with
  | nil => rfl
  | cons p rest ih => simp [List.foldl_cons, h2 p.1 p.2, ih]

/-- Witness for C10: `"ghost"` has no client in the two-account system;
a fetch returns `null` and two further passes change nothing. -/
theorem fetch_no_client_witness :
    alookup sysAB.mgr.clients "ghost" = none ∧
    fetchAccountData sysAB.mgr "ghost" 500 .throw =
      ⟨none, false, sysAB.mgr⟩ ∧
    fetchPassStep sysAB 500 .throw "ghost" = sysAB ∧
    [((600 : Nat), ConnectorOutcome.throw),
     (700, ConnectorOutcome.ok sampleData)].foldl
      (fun st p => fetchPassStep st p.1 p.2 "ghost") sysAB = sysAB := by
  have h := fetch_no_client sysAB "ghost" 500 .throw (by decide)
  exact ⟨by decide, h.1, h.2.1, h.2.2 _⟩

/-! ## Health reporting -/

/-- C4 (amended): `getHealthStatus` reports, for every account with a
stored client, `healthy = true` if and only if a fetch succeeded and it
did so within the last 60000 ms — the backoff state plays no part in
`healthy` and is reported separately as `inBackoff`. -/
theorem getHealthStatus_healthy_iff (sys : SysState) (now : Nat)
    (name : String) (c : ClientInfo)
    (h : alookup sys.mgr.clients name = some c) :
    alookup (getHealthStatus sys now) name =
      some (healthFor sys now name) ∧
    ((healthFor sys now name).healthy = true ↔
      0 < (alookup sys.mgr.lastFetchTimes name).getD 0 ∧
      now - (alookup sys.mgr.lastFetchTimes name).getD 0 < 60000) := by
  constructor
  · exact alookup_map_self (healthFor sys now) sys.mgr.clients name c h
  · simp [healthFor]

/-- Witness for C4: the amended health equivalence instantiated in the
five-failure state at t = 1006. -/
theorem getHealthStatus_healthy_iff_witness :
    alookup sysAFiveFailures.mgr.clients "A" = some sampleClient ∧
    alookup (getHealthStatus sysAFiveFailures 1006) "A" =
      some (healthFor sysAFiveFailures 1006 "A") ∧
    ((healthFor sysAFiveFailures 1006 "A").healthy = true ↔
      0 < (alookup sysAFiveFailures.mgr.lastFetchTimes "A").getD 0 ∧
      1006 - (alookup sysAFiveFailures.mgr.lastFetchTimes "A").getD 0 <
        60000) := by
  have h := getHealthStatus_healthy_iff sysAFiveFailures 1006 "A" sampleClient
    (by decide)
  exact ⟨by decide, h.1, h.2⟩

/-- Counterexample to C4 as stated: in a state reached through the
manager's own transitions (a success at t = 1000, then five consecutive
failures arming a backoff until t = 31005), `getHealthStatus` at
t = 1006 reports `healthy = true` although the backoff is active
(`backoffUntil = 31005 > 1006`), so `healthy` is not conjoined with "no
backoff is active". -/
theorem getHealthStatus_healthy_despite_backoff :
    (alookup (getHealthStatus sysAFiveFailures 1006) "A").map
      HealthRecord.healthy = some true ∧
    (alookup (getHealthStatus sysAFiveFailures 1006) "A").map
      HealthRecord.inBackoff = some true ∧
    backoffActive sysAFiveFailures.mgr "A" 1006 = true ∧
    alookup sysAFiveFailures.mgr.backoffTimes "A" = some 31005 ∧
    alookup sysAFiveFailures.mgr.lastFetchTimes "A" = some 1000 := by
  refine ⟨?_, ?_, ?_, ?_, ?_⟩ <;> decide

/-! ## Registration -/

/-- C5 (evaluation at the failing input): registering `"X"` — a name
absent from `config.accounts` — succeeds; after one failed fetch raises
its error count to 1, registering the very same name again is not
rejected as a duplicate: it succeeds and silently resets the existing
account's tracking state (the error count drops back to 0 and the
connector is rebuilt), contradicting "a duplicate registration fails
and never edits an existing account in place". -/
theorem registerAccount_duplicate_resets_state :
    registerAccount sysEmpty cfgX true = Except.ok sysX1 ∧
    (alookup sysX1.mgr.clients "X").isSome = true ∧
    alookup sysX2.mgr.errorCounts "X" = some 1 ∧
    registerAccount sysX2 cfgX true = Except.ok sysX1 ∧
    alookup sysX1.mgr.errorCounts "X" = some 0 := by
  refine ⟨rfl, rfl, rfl, rfl, rfl⟩


/-! ## The deep-copy read path -/

theorem toTree_frame (n : Nat) (h1 h2 : Heap)
    (hcl : ClosedBelow n h1)
    (hag : ∀ a, a < n → hlookup h2 a = hlookup h1 a) :
    ∀ fuel : Nat,
      (∀ v, ValBelow n v → toTreeV fuel h2 v = toTreeV fuel h1 v) ∧
      (∀ fs, (∀ p ∈ fs, ValBelow n p.2) →
        toTreeFields fuel h2 fs = toTreeFields fuel h1 fs) ∧
      (∀ vs, (∀ v ∈ vs, ValBelow n v) →
        toTreeItems fuel h2 vs = toTreeItems fuel h1 vs) := by
  intro fuel
  induction fuel with
  | zero =>
      have hV : ∀ v, ValBelow n v → toTreeV 0 h2 v = toTreeV 0 h1 v := by
        intro v hv
        cases v with
        | prim p => simp [toTreeV]
        | ref a => simp [toTreeV]
      have hF : ∀ fs, (∀ p ∈ fs, ValBelow n p.2) →
          toTreeFields 0 h2 fs = toTreeFields 0 h1 fs := by
        intro fs hfs
        induction fs with
        | nil => simp [toTreeFields]
        | cons p rest ih =>
            obtain ⟨k, v⟩ := p
            simp only [toTreeFields]
            rw [hV v (hfs ⟨k, v⟩ (by simp)),
                ih (fun q hq => hfs q (List.mem_cons_of_mem _ hq))]
      have hI : ∀ vs, (∀ v ∈ vs, ValBelow n v) →
          toTreeItems 0 h2 vs = toTreeItems 0 h1 vs := by
        intro vs hvs
        induction vs with
        | nil => simp [toTreeItems]
        | cons v rest ih =>
            simp only [toTreeItems]
            rw [hV v (hvs v (by simp)),
                ih (fun w hw => hvs w (List.mem_cons_of_mem _ hw))]
      exact ⟨hV, hF, hI⟩
  | succ fuel ih =>
      have hV : ∀ v, ValBelow n v →
          toTreeV (fuel + 1) h2 v = toTreeV (fuel + 1) h1 v := by
        intro v hv
        cases v with
        | prim p => simp [toTreeV]
        | ref a =>
            have ha : a < n := hv
            simp only [toTreeV]
            rw [hag a ha]
            cases hnode : hlookup h1 a with
            | none => rfl
            | some node =>
                have hmem : (a, node) ∈ h1.mem := alookup_mem _ _ _ hnode
                have hbelow := hcl ⟨a, node⟩ hmem ha
                cases node with
                | obj fs => simp only [ih.2.1 fs hbelow]
                | arr vs => simp only [ih.2.2 vs hbelow]
      have hF : ∀ fs, (∀ p ∈ fs, ValBelow n p.2) →
          toTreeFields (fuel + 1) h2 fs = toTreeFields (fuel + 1) h1 fs := by
        intro fs hfs
        induction fs with
        | nil => simp [toTreeFields]
        | cons p rest ihl =>
            obtain ⟨k, v⟩ := p
            simp only [toTreeFields]
            rw [hV v (hfs ⟨k, v⟩ (by simp)),
                ihl (fun q hq => hfs q (List.mem_cons_of_mem _ hq))]
      have hI : ∀ vs, (∀ v ∈ vs, ValBelow n v) →
          toTreeItems (fuel + 1) h2 vs = toTreeItems (fuel + 1) h1 vs := by
        intro vs hvs
        induction vs with
        | nil => simp [toTreeItems]
        | cons v rest ihl =>
            simp only [toTreeItems]
            rw [hV v (hvs v (by simp)),
                ihl (fun w hw => hvs w (List.mem_cons_of_mem _ hw))]
      exact ⟨hV, hF, hI⟩

mutual
theorem fromTreeV_frame (t : JTree) (h : Heap) :
    h.next ≤ (fromTreeV t h).2.next ∧
    ∀ a, a < h.next → hlookup (fromTreeV t h).2 a = hlookup h a := by
  match t with
  | .prim p => exact ⟨Nat.le_refl _, fun a _ => rfl⟩
  | .obj fs =>
      have ihf := fromTreeFields_frame fs h
      refine ⟨?_, ?_⟩
      · simp only [fromTreeV]
        omega
      · intro a ha
        simp only [fromTreeV, hlookup]
        rw [alookup_aset_ne _ _ _ _ (by omega : a ≠ (fromTreeFields fs h).2.next)]
        exact ihf.2 a ha
  | .arr ts =>
      have ihf := fromTreeItems_frame ts h
      refine ⟨?_, ?_⟩
      · simp only [fromTreeV]
        omega
      · intro a ha
        simp only [fromTreeV, hlookup]
        rw [alookup_aset_ne _ _ _ _ (by omega : a ≠ (fromTreeItems ts h).2.next)]
        exact ihf.2 a ha
theorem fromTreeFields_frame (fs : List (String × JTree)) (h : Heap) :
    h.next ≤ (fromTreeFields fs h).2.next ∧
    ∀ a, a < h.next → hlookup (fromTreeFields fs h).2 a = hlookup h a := by
  match fs with
  | [] => exact ⟨Nat.le_refl _, fun a _ => rfl⟩
  | (k, t) :: rest =>
      have ihv := fromTreeV_frame t h
      have ihr := fromTreeFields_frame rest (fromTreeV t h).2
      refine ⟨?_, ?_⟩
      · simp only [fromTreeFields]
        omega
      · intro a ha
        simp only [fromTreeFields]
        rw [ihr.2 a (by omega), ihv.2 a ha]
theorem fromTreeItems_frame (ts : List JTree) (h : Heap) :
    h.next ≤ (fromTreeItems ts h).2.next ∧
    ∀ a, a < h.next → hlookup (fromTreeItems ts h).2 a = hlookup h a := by
  match ts with
  | [] => exact ⟨Nat.le_refl _, fun a _ => rfl⟩
  | t :: rest =>
      have ihv := fromTreeV_frame t h
      have ihr := fromTreeItems_frame rest (fromTreeV t h).2
      refine ⟨?_, ?_⟩
      · simp only [fromTreeItems]
        omega
      · intro a ha
        simp only [fromTreeItems]
        rw [ihr.2 a (by omega), ihv.2 a ha]
end

theorem ValGE_mono {m n : Nat} (h : m ≤ n) {v : JVal} (hv : ValGE n v) :
    ValGE m v := by
  cases v with
  | prim p => trivial
  | ref a => exact Nat.le_trans h hv

theorem ValBelow_mono {n m : Nat} (h : n ≤ m) {v : JVal} (hv : ValBelow n v) :
    ValBelow m v := by
  cases v with
  | prim p => trivial
  | ref a => exact Nat.lt_of_lt_of_le hv h

theorem NodeGE_mono {m n : Nat} (h : m ≤ n) {node : JNode}
    (hn : NodeGE n node) : NodeGE m node := by
  cases node with
  | obj fs => exact fun p hp => ValGE_mono h (hn p hp)
  | arr vs => exact fun v hv => ValGE_mono h (hn v hv)

theorem NodeBelow_mono {n m : Nat} (h : n ≤ m) {node : JNode}
    (hn : NodeBelow n node) : NodeBelow m node := by
  cases node with
  | obj fs => exact fun p hp => ValBelow_mono h (hn p hp)
  | arr vs => exact fun v hv => ValBelow_mono h (hn v hv)

mutual
theorem fromTreeV_fresh (t : JTree) (h : Heap) (hwf : WFHeap h) :
    WFHeap (fromTreeV t h).2 ∧
    ValGE h.next (fromTreeV t h).1 ∧
    ValBelow (fromTreeV t h).2.next (fromTreeV t h).1 ∧
    (∀ a node, h.next ≤ a → hlookup (fromTreeV t h).2 a = some node →
      NodeGE h.next node ∧ NodeBelow (fromTreeV t h).2.next node) := by
  match t with
  | .prim p =>
      refine ⟨hwf, trivial, trivial, ?_⟩
      intro a node ha hl
      have hmem := alookup_mem _ _ _ hl
      have := hwf _ hmem
      omega
  | .obj fs =>
      have ihf := fromTreeFields_fresh fs h hwf
      have hfr := fromTreeFields_frame fs h
      refine ⟨?_, ?_, ?_, ?_⟩
      · intro p hp
        simp only [fromTreeV] at hp ⊢
        rcases mem_aset _ _ _ _ hp with he | hm
        · rw [he]
          simp
        · have := ihf.1 _ hm
          simp
          omega
      · simp only [fromTreeV]
        exact hfr.1
      · simp only [fromTreeV, ValBelow]
        omega
      · intro a node ha hl
        simp only [fromTreeV, hlookup] at hl
        by_cases hea : a = (fromTreeFields fs h).2.next
        · subst hea
          rw [alookup_aset_self] at hl
          cases hl
          constructor
          · intro p hp
            exact (ihf.2.1 p hp).1
          · intro p hp
            exact ValBelow_mono (by simp only [fromTreeV]; omega)
              (ihf.2.1 p hp).2
        · rw [alookup_aset_ne _ _ _ _ hea] at hl
          have := ihf.2.2 a node ha hl
          exact ⟨this.1, NodeBelow_mono (by simp only [fromTreeV]; omega) this.2⟩
  | .arr ts =>
      have ihf := fromTreeItems_fresh ts h hwf
      have hfr := fromTreeItems_frame ts h
      refine ⟨?_, ?_, ?_, ?_⟩
      · intro p hp
        simp only [fromTreeV] at hp ⊢
        rcases mem_aset _ _ _ _ hp with he | hm
        · rw [he]
          simp
        · have := ihf.1 _ hm
          simp
          omega
      · simp only [fromTreeV]
        exact hfr.1
      · simp only [fromTreeV, ValBelow]
        omega
      · intro a node ha hl
        simp only [fromTreeV, hlookup] at hl
        by_cases hea : a = (fromTreeItems ts h).2.next
        · subst hea
          rw [alookup_aset_self] at hl
          cases hl
          constructor
          · intro v hv
            exact (ihf.2.1 v hv).1
          · intro v hv
            exact ValBelow_mono (by simp only [fromTreeV]; omega)
              (ihf.2.1 v hv).2
        · rw [alookup_aset_ne _ _ _ _ hea] at hl
          have := ihf.2.2 a node ha hl
          exact ⟨this.1, NodeBelow_mono (by simp only [fromTreeV]; omega) this.2⟩
theorem fromTreeFields_fresh (fs : List (String × JTree)) (h : Heap)
    (hwf : WFHeap h) :
    WFHeap (fromTreeFields fs h).2 ∧
    (∀ p ∈ (fromTreeFields fs h).1,
      ValGE h.next p.2 ∧ ValBelow (fromTreeFields fs h).2.next p.2) ∧
    (∀ a node, h.next ≤ a → hlookup (fromTreeFields fs h).2 a = some node →
      NodeGE h.next node ∧ NodeBelow (fromTreeFields fs h).2.next node) := by
  match fs with
  | [] =>
      refine ⟨hwf, by simp [fromTreeFields], ?_⟩
      intro a node ha hl
      have hmem := alookup_mem _ _ _ hl
      have := hwf _ hmem
      omega
  | (k, t) :: rest =>
      have ihv := fromTreeV_fresh t h hwf
      have hfrv := fromTreeV_frame t h
      have ihr := fromTreeFields_fresh rest (fromTreeV t h).2 ihv.1
      have hfrr := fromTreeFields_frame rest (fromTreeV t h).2
      refine ⟨?_, ?_, ?_⟩
      · simp only [fromTreeFields]
        exact ihr.1
      · intro p hp
        simp only [fromTreeFields] at hp ⊢
        cases hp with
        | head => exact ⟨ihv.2.1, ValBelow_mono hfrr.1 ihv.2.2.1⟩
        | tail _ hp =>
            have := ihr.2.1 p hp
            exact ⟨ValGE_mono hfrv.1 this.1, this.2⟩
      · intro a node ha hl
        simp only [fromTreeFields] at hl
        by_cases hge : (fromTreeV t h).2.next ≤ a
        · have := ihr.2.2 a node hge hl
          exact ⟨NodeGE_mono hfrv.1 this.1, this.2⟩
        · push_neg at hge
          rw [hfrr.2 a hge] at hl
          have := ihv.2.2.2 a node ha hl
          exact ⟨this.1, NodeBelow_mono hfrr.1 this.2⟩
theorem fromTreeItems_fresh (ts : List JTree) (h : Heap)
    (hwf : WFHeap h) :
    WFHeap (fromTreeItems ts h).2 ∧
    (∀ v ∈ (fromTreeItems ts h).1,
      ValGE h.next v ∧ ValBelow (fromTreeItems ts h).2.next v) ∧
    (∀ a node, h.next ≤ a → hlookup (fromTreeItems ts h).2 a = some node →
      NodeGE h.next node ∧ NodeBelow (fromTreeItems ts h).2.next node) := by
  match ts with
  | [] =>
      refine ⟨hwf, by simp [fromTreeItems], ?_⟩
      intro a node ha hl
      have hmem := alookup_mem _ _ _ hl
      have := hwf _ hmem
      omega
  | t :: rest =>
      have ihv := fromTreeV_fresh t h hwf
      have hfrv := fromTreeV_frame t h
      have ihr := fromTreeItems_fresh rest (fromTreeV t h).2 ihv.1
      have hfrr := fromTreeItems_frame rest (fromTreeV t h).2
      refine ⟨?_, ?_, ?_⟩
      · simp only [fromTreeItems]
        exact ihr.1
      · intro v hv
        simp only [fromTreeItems] at hv ⊢
        cases hv with
        | head => exact ⟨ihv.2.1, ValBelow_mono hfrr.1 ihv.2.2.1⟩
        | tail _ hv =>
            have := ihr.2.1 v hv
            exact ⟨ValGE_mono hfrv.1 this.1, this.2⟩
      · intro a node ha hl
        simp only [fromTreeItems] at hl
        by_cases hge : (fromTreeV t h).2.next ≤ a
        · have := ihr.2.2 a node hge hl
          exact ⟨NodeGE_mono hfrv.1 this.1, this.2⟩
        · push_neg at hge
          rw [hfrr.2 a hge] at hl
          have := ihv.2.2.2 a node ha hl
          exact ⟨this.1, NodeBelow_mono hfrr.1 this.2⟩
end

theorem reaches_ge (h : Heap) (n : Nat)
    (hnodes : ∀ a node, n ≤ a → hlookup h a = some node → NodeGE n node)
    (v : JVal) (b : Nat) (hr : Reaches h v b) (hv : ValGE n v) : n ≤ b := by
  induction hr with
  | here a => exact hv
  | objField a fs p b hl hp _ ih =>
      have ha : n ≤ a := hv
      exact ih (hnodes a _ ha hl p hp)
  | arrItem a vs w b hl hw _ ih =>
      have ha : n ≤ a := hv
      exact ih (hnodes a _ ha hl w hw)

theorem setLastUpdateField_spec (v : JVal) (h : Heap) (ts : String) (n : Nat)
    (hwf : WFHeap h) (hv : ValGE n v)
    (hnodes : ∀ a node, n ≤ a → hlookup h a = some node → NodeGE n node) :
    (setLastUpdateField v h ts).1 = v ∧
    (setLastUpdateField v h ts).2.next = h.next ∧
    WFHeap (setLastUpdateField v h ts).2 ∧
    (∀ a, a < n → hlookup (setLastUpdateField v h ts).2 a = hlookup h a) ∧
    (∀ a node, n ≤ a → hlookup (setLastUpdateField v h ts).2 a = some node →
      NodeGE n node) := by
  cases v with
  | prim p =>
      exact ⟨rfl, rfl, hwf, fun _ _ => rfl,
             fun a node ha hl => hnodes a node ha hl⟩
  | ref a0 =>
      have ha0 : n ≤ a0 := hv
      cases hl0 : hlookup h a0 with
      | none =>
          refine ⟨?_, ?_, ?_, ?_, ?_⟩ <;>
            simp only [setLastUpdateField, hl0]
          · exact hwf
          · intro b hb; trivial
          · intro a node ha hl
            exact hnodes a node ha hl
      | some node0 =>
          cases node0 with
          | arr vs =>
              refine ⟨?_, ?_, ?_, ?_, ?_⟩ <;>
                simp only [setLastUpdateField, hl0]
              · exact hwf
              · intro b hb; trivial
              · intro a node ha hl
                exact hnodes a node ha hl
          | obj fs =>
              have hGE0 : NodeGE n (.obj fs) := hnodes a0 _ ha0 hl0
              have ha0next : a0 < h.next := hwf _ (alookup_mem _ _ _ hl0)
              have hGEnew : NodeGE n
                  (.obj (aset fs "lastUpdate" (.prim (.jstr ts)))) := by
                intro p hp
                rcases mem_aset _ _ _ _ hp with he | hm
                · rw [he]; trivial
                · exact hGE0 p hm
              simp only [setLastUpdateField, hl0]
              refine ⟨trivial, rfl, ?_, ?_, ?_⟩
              · intro p hp
                simp only [hwrite] at hp ⊢
                rcases mem_aset _ _ _ _ hp with he | hm
                · rw [he]; exact ha0next
                · exact hwf _ hm
              · intro a ha
                simp only [hwrite, hlookup]
                exact alookup_aset_ne _ _ _ _ (by omega)
              · intro a node ha hl
                simp only [hwrite, hlookup] at hl
                by_cases hea : a = a0
                · subst hea
                  rw [alookup_aset_self] at hl
                  cases hl
                  exact hGEnew
                · rw [alookup_aset_ne _ _ _ _ hea] at hl
                  exact hnodes a node ha hl

/-- C9: `getCachedData` returns an independent deep copy of the cache.
With the cache rooted at `root` in a well-formed heap (every node below
the allocation counter, the live region closed under reachability) and
serializing to the tree `t`, a successful read returns a value `v` and
heap `h'` such that: the read leaves every pre-existing cache node
untouched; the cache still serializes to `t`; every address reachable
from the returned copy lies in the fresh region, so the copy shares no
node with the cache; any heap that still agrees with the cache region
serializes the cache to `t`; and in particular overwriting any node
reachable from the returned copy neither changes the cache region nor
what a subsequent read of the cache serializes to. -/
theorem getCachedData_deep_copy (h : Heap) (root : JVal) (fuel : Nat)
    (ts : String) (t : JTree) (v : JVal) (h' : Heap)
    (hwf : WFHeap h) (hcl : ClosedBelow h.next h)
    (hroot : ValBelow h.next root)
    (ht : toTreeV fuel h root = some t)
    (hres : getCachedData h root fuel ts = some (v, h')) :
    (∀ a, a < h.next → hlookup h' a = hlookup h a) ∧
    toTreeV fuel h' root = some t ∧
    (∀ a, Reaches h' v a → h.next ≤ a) ∧
    (∀ h'' : Heap, (∀ a, a < h.next → hlookup h'' a = hlookup h a) →
      toTreeV fuel h'' root = some t) ∧
    (∀ a node, Reaches h' v a →
      (∀ b, b < h.next → hlookup (hwrite h' a node) b = hlookup h b) ∧
      toTreeV fuel (hwrite h' a node) root = some t) := by
  have hres2 : setLastUpdateField (fromTreeV t h).1 (fromTreeV t h).2 ts =
      (v, h') := by
    simpa [getCachedData, ht] using hres
  have hres' : v = (setLastUpdateField (fromTreeV t h).1 (fromTreeV t h).2 ts).1 ∧
      h' = (setLastUpdateField (fromTreeV t h).1 (fromTreeV t h).2 ts).2 := by
    rw [hres2]
    exact ⟨rfl, rfl⟩
  have hfresh := fromTreeV_fresh t h hwf
  have hfr := fromTreeV_frame t h
  have hnodes1 : ∀ a node, h.next ≤ a →
      hlookup (fromTreeV t h).2 a = some node → NodeGE h.next node :=
    fun a node ha hl => (hfresh.2.2.2 a node ha hl).1
  have hset := setLastUpdateField_spec (fromTreeV t h).1 (fromTreeV t h).2 ts
    h.next hfresh.1 hfresh.2.1 hnodes1
  have hframe : ∀ h'' : Heap, (∀ a, a < h.next → hlookup h'' a = hlookup h a) →
      toTreeV fuel h'' root = some t := by
    intro h'' hag
    rw [(toTree_frame h.next h h'' hcl hag fuel).1 root hroot]
    exact ht
  have hagree : ∀ a, a < h.next → hlookup h' a = hlookup h a := by
    intro a ha
    rw [hres'.2, hset.2.2.2.1 a ha, hfr.2 a ha]
  have hvGE : ValGE h.next v := by
    rw [hres'.1, hset.1]
    exact hfresh.2.1
  have hnodes' : ∀ a node, h.next ≤ a → hlookup h' a = some node →
      NodeGE h.next node := by
    intro a node ha hl
    rw [hres'.2] at hl
    exact hset.2.2.2.2 a node ha hl
  have hreach : ∀ a, Reaches h' v a → h.next ≤ a := by
    intro a hr
    exact reaches_ge h' h.next hnodes' v a hr hvGE
  refine ⟨hagree, hframe h' hagree, hreach, hframe, ?_⟩
  intro a node hr
  have ha := hreach a hr
  have hagw : ∀ b, b < h.next → hlookup (hwrite h' a node) b = hlookup h b := by
    intro b hb
    simp only [hwrite, hlookup]
    rw [alookup_aset_ne _ _ _ _ (by omega)]
    exact hagree b hb
  exact ⟨hagw, hframe _ hagw⟩

/-- Witness for C9: on the concrete cache heap `h9` the read returns
the copy rooted at address 3 in heap `h9'`; the original nodes 0 and 1
are untouched, the cache still serializes to `t9`, and overwriting the
copy's root node (address 3) still leaves the cache serialization
unchanged. -/
theorem getCachedData_deep_copy_witness :
    WFHeap h9 ∧ ClosedBelow h9.next h9 ∧ ValBelow h9.next (JVal.ref 0) ∧
    toTreeV 3 h9 (.ref 0) = some t9 ∧
    getCachedData h9 (.ref 0) 3 "T" = some (v9, h9') ∧
    toTreeV 3 h9' (.ref 0) = some t9 ∧
    hlookup h9' 0 = hlookup h9 0 ∧
    hlookup h9' 1 = hlookup h9 1 ∧
    toTreeV 3 (hwrite h9' 3 (.obj [])) (.ref 0) = some t9 := by
  have ht : toTreeV 3 h9 (.ref 0) = some t9 := by
    simp [toTreeV, toTreeFields, toTreeItems, hlookup, alookup, h9, t9]
  have hres : getCachedData h9 (.ref 0) 3 "T" = some (v9, h9') := by
    simp [getCachedData, toTreeV, toTreeFields, toTreeItems, fromTreeV,
          fromTreeFields, fromTreeItems, setLastUpdateField, hlookup, alookup,
          aset, hwrite, h9, t9, v9, h9']
  have h := getCachedData_deep_copy h9 (.ref 0) 3 "T" t9 v9 h9'
    (by decide) (by decide) (by decide) ht hres
  refine ⟨by decide, by decide, by decide, ht, hres, h.2.1,
          h.1 0 (by decide), h.1 1 (by decide), ?_⟩
  exact (h.2.2.2.2 3 (.obj []) (Reaches.here 3)).2

end ExMon
